import Mathlib

/-!
Verification of the analytics core of the Elevate productivity dashboard
(gamification.py, utils.py, ml_analyzer.py) against its specification.

The Python code is shallowly embedded: DataFrames become lists of records,
calendar dates become integers (days since an epoch), and all numeric
computation is carried out in exact rational arithmetic (`ℚ`).  Python's
`int(...)` conversion (truncation toward zero) and `round(x, n)`
(round-half-to-even) are modelled explicitly.
-/

namespace Elevate

/-- Python `int(q)` on a float/number: truncation toward zero. -/
def pytrunc (q : ℚ) : ℤ := if 0 ≤ q then ⌊q⌋ else ⌈q⌉

/-- Round to the nearest integer, ties to the nearest even integer —
the rounding used by Python's built-in `round` and by pandas `.round`. -/
def pyRoundHalfEven (x : ℚ) : ℤ :=
  let n : ℤ := ⌊x⌋
  let f : ℚ := x - n
  if f < 1/2 then n
  else if 1/2 < f then n + 1
  else if n % 2 = 0 then n else n + 1

/-- Python `round(x, 1)`. -/
def pyRound1 (x : ℚ) : ℚ := (pyRoundHalfEven (x * 10) : ℚ) / 10

/-- Python `round(x, 2)` / pandas `.round(2)`. -/
def pyRound2 (x : ℚ) : ℚ := (pyRoundHalfEven (x * 100) : ℚ) / 100

/-! ## GamificationSystem (gamification.py)

Constants from `GamificationSystem.__init__`. -/

/-- `self.base_xp_per_minute = 2`. -/
def base_xp_per_minute : ℤ := 2

/-- `self.confidence_multiplier = {1: 0.5, 2: 0.7, 3: 1.0, 4: 1.3, 5: 1.5}`,
with `.get(confidence_rating, 1.0)` lookup semantics folded in. -/
def confidence_multiplier (rating : ℤ) : ℚ :=
  if rating = 1 then 1/2
  else if rating = 2 then 7/10
  else if rating = 3 then 1
  else if rating = 4 then 13/10
  else if rating = 5 then 3/2
  else 1

/-- `self.streak_bonus_multiplier = 0.1`. -/
def streak_bonus_multiplier : ℚ := 1/10

/-- `self.level_thresholds`. -/
def level_thresholds : List ℤ :=
  [0, 100, 250, 450, 700, 1000, 1400, 1850, 2350, 2900, 3500,
   4200, 5000, 5900, 6900, 8000, 9200, 10500, 12000, 13600, 15300]

/-- `GamificationSystem.calculate_session_xp`:
`base_xp = duration_minutes * 2`;
`streak_bonus = min(0.5, streak_days * 0.1)`;
`total_xp = int(base_xp * confidence_bonus * (1 + streak_bonus))`;
`return max(5, total_xp)`. -/
def calculate_session_xp (duration_minutes confidence_rating streak_days : ℤ) : ℤ :=
  let base_xp : ℤ := duration_minutes * base_xp_per_minute
  let confidence_bonus : ℚ := confidence_multiplier confidence_rating
  let streak_bonus : ℚ := min (1/2) (streak_days * streak_bonus_multiplier)
  let total_xp : ℤ := pytrunc ((base_xp : ℚ) * confidence_bonus * (1 + streak_bonus))
  max 5 total_xp

/-- The loop body of `GamificationSystem.get_level`: walk the threshold list
with its enumeration index, returning `max(1, level)` at the first threshold
exceeding `total_xp`, and `len(self.level_thresholds)` if none does. -/
def getLevelGo (total_xp : ℤ) : List ℤ → ℕ → ℕ
  | [], _ => level_thresholds.length
  | t :: ts, level => if total_xp < t then max 1 level else getLevelGo total_xp ts (level + 1)

/-- `GamificationSystem.get_level`. -/
def get_level (total_xp : ℤ) : ℕ := getLevelGo total_xp level_thresholds 0

/-- Count of consecutive calendar days present in `dates`, walking backward
from `d` (inclusive) and stopping at the first missing day.  This is the
counting loop shared by `utils.calculate_streak` and
`GamificationSystem._calculate_streak_for_date`: both iterate the distinct
study dates in descending order and count while each expected previous day
is present.  `fuel` bounds the recursion; every counted day is a distinct
member of `dates`, so `dates.card` fuel is always enough. -/
def runFrom (dates : Finset ℤ) (d : ℤ) : ℕ → ℕ
  | 0 => 0
  | fuel + 1 => if d ∈ dates then runFrom dates (d - 1) fuel + 1 else 0

/-- `GamificationSystem._calculate_streak_for_date`: restrict to the distinct
dates `≤ target_date`; if that set is empty or its most recent element is not
`target_date` itself, the streak is 0; otherwise count consecutive days
backward from `target_date`. -/
def streakForDate (dates : Finset ℤ) (target_date : ℤ) : ℕ :=
  let study_dates : Finset ℤ := dates.filter (fun d => d ≤ target_date)
  if h : study_dates.Nonempty then
    if study_dates.max' h = target_date then
      runFrom study_dates target_date study_dates.card
    else 0
  else 0

/-- `utils.calculate_streak`, with the wall clock made explicit: `today`
stands for `datetime.now().date()`.  The most recent distinct study date must
be `today` or `yesterday`; counting then starts there. -/
def calculate_streak (dates : Finset ℤ) (today : ℤ) : ℕ :=
  if h : dates.Nonempty then
    let latest := dates.max' h
    if latest = today ∨ latest = today - 1 then runFrom dates latest dates.card
    else 0
  else 0

/-- The streak procedure as the specification's words describe it
(spec §4.1 / claim C2): if `now` is present count backward from `now`;
otherwise if `now - 1` is present count backward from `now - 1`;
otherwise 0.  Written for comparison against `calculate_streak`. -/
def specStreak (dates : Finset ℤ) (now : ℤ) : ℕ :=
  if now ∈ dates then runFrom dates now dates.card
  else if now - 1 ∈ dates then runFrom dates (now - 1) dates.card
  else 0

/-- A study session row of the per-user study DataFrame
(`date, subject, chapter, duration_minutes, confidence_rating, notes,
timestamp`); the date is a calendar day as an integer and the timestamp is
represented by the hour it carries (the only part the analytics read). -/
structure Session where
  date : ℤ
  subject : String
  chapter : String
  duration_minutes : ℤ
  confidence_rating : ℤ
  notes : String
  timestampHour : ℤ
deriving DecidableEq, Repr

/-- The distinct dates occurring in a session log. -/
def sessionDates (log : List Session) : Finset ℤ := (log.map Session.date).toFinset

/-- `GamificationSystem.calculate_total_xp`: per session, recompute the
streak as of that session's date over the whole log, then sum
`calculate_session_xp` over all sessions.  (The `user_data.empty` early
return yields 0, which the empty sum also gives.) -/
def calculate_total_xp (log : List Session) : ℤ :=
  (log.map (fun s =>
    calculate_session_xp s.duration_minutes s.confidence_rating
      (streakForDate (sessionDates log) s.date : ℤ))).sum

/-! ## Shared list helpers for the pandas operations -/

/-- Mean of a list of rationals (pandas `.mean()`); the empty mean is the
rational 0 (ℚ-division by zero), a case never reached on the paths the
analytics take it. -/
def listMean (l : List ℚ) : ℚ := l.sum / l.length

/-- Stable insertion for `sortOn`: the new element goes after every element
whose key is less than or equal to its own. -/
def insertOn {α : Type} (key : α → ℤ) (a : α) : List α → List α
  | [] => [a]
  | b :: l => if key b ≤ key a then b :: insertOn key a l else a :: b :: l

/-- Stable ascending sort by an integer key — models pandas
`sort_values(...)` (and `sorted(...)` on dates). -/
def sortOn {α : Type} (key : α → ℤ) (l : List α) : List α :=
  l.foldl (fun acc a => insertOn key a acc) []

/-- Stable insertion for `sortScoreDesc`. -/
def insertScoreDesc {α : Type} (key : α → ℚ) (a : α) : List α → List α
  | [] => [a]
  | b :: l => if key a ≤ key b then b :: insertScoreDesc key a l else a :: b :: l

/-- Stable descending sort by a rational key — models Python
`list.sort(key=..., reverse=True)`. -/
def sortScoreDesc {α : Type} (key : α → ℚ) (l : List α) : List α :=
  l.foldl (fun acc a => insertScoreDesc key a acc) []

/-- Duplicate removal keeping first occurrences, in encounter order —
models pandas `.unique()` / `.nunique()` on an unsorted column. -/
def firstDedup {α : Type} [DecidableEq α] : List α → List α
  | [] => []
  | x :: xs => x :: firstDedup (xs.filter fun y => y != x)
termination_by l => l.length
decreasing_by
  simp only [List.length_cons]
  exact Nat.lt_succ_of_le (List.length_filter_le _ _)

/-- Minimum of a list of dates (pandas `.min()`); 0 for the empty column,
which no analytics path reaches. -/
def minDate : List ℤ → ℤ
  | [] => 0
  | d :: ds => ds.foldl min d

/-- Maximum of a list of dates (pandas `.max()`). -/
def maxDate : List ℤ → ℤ
  | [] => 0
  | d :: ds => ds.foldl max d

/-- Helper for `cumsum`: running total. -/
def cumsumGo (acc : ℚ) : List ℚ → List ℚ
  | [] => []
  | x :: xs => (acc + x) :: cumsumGo (acc + x) xs

/-- pandas `.cumsum()`. -/
def cumsum (l : List ℚ) : List ℚ := cumsumGo 0 l

/-- First element strictly maximising `f` (pandas `.idxmax()` keeps the
first index attaining the maximum). -/
def argmaxBy {α : Type} (f : α → ℚ) : List α → Option α
  | [] => none
  | x :: xs => some (xs.foldl (fun b a => if f b < f a then a else b) x)

/-! ## MLAnalyzer (ml_analyzer.py) -/

/-- An expense row of the per-user expenses DataFrame
(`id, amount, category, date, description`). -/
structure Expense where
  id : String
  amount : ℚ
  category : String
  date : ℤ
  description : String
deriving DecidableEq, Repr

/-- `self.weakness_threshold = 3.0`. -/
def weakness_threshold : ℚ := 3

/-- `self.min_sessions_for_analysis = 3`. -/
def min_sessions_for_analysis : ℕ := 3

/-- The distinct expense dates in ascending order: `groupby('date')`
produces sorted keys, and the following `sort_values('date')` is a no-op. -/
def uniqueSortedDates (expense_data : List Expense) : List ℤ :=
  (sortOn (fun d => d) (expense_data.map Expense.date)).dedup

/-- Total amount spent on date `d` (`groupby('date')['amount'].sum()`). -/
def dailyAmount (expense_data : List Expense) (d : ℤ) : ℚ :=
  ((expense_data.filter (fun e => e.date == d)).map Expense.amount).sum

/-- The linear-regression sample of `forecast_spending`: one point per
distinct date in ascending order, x = days since the first date
(`(date - date.min()).dt.days`), y = cumulative spending. -/
def dailyPoints (expense_data : List Expense) : List (ℤ × ℚ) :=
  let ds := uniqueSortedDates expense_data
  let days := ds.map (fun d => d - minDate ds)
  days.zip (cumsum (ds.map (dailyAmount expense_data)))

/-- Slope of the ordinary-least-squares line through `pts` — the exact
rational value of the coefficient `sklearn.LinearRegression` fits. -/
def fitSlope (pts : List (ℤ × ℚ)) : ℚ :=
  let n : ℚ := pts.length
  let sx : ℚ := (pts.map (fun p => (p.1 : ℚ))).sum
  let sy : ℚ := (pts.map Prod.snd).sum
  let sxy : ℚ := (pts.map (fun p => (p.1 : ℚ) * p.2)).sum
  let sxx : ℚ := (pts.map (fun p => (p.1 : ℚ) * (p.1 : ℚ))).sum
  (n * sxy - sx * sy) / (n * sxx - sx * sx)

/-- Intercept of the ordinary-least-squares line through `pts`. -/
def fitIntercept (pts : List (ℤ × ℚ)) : ℚ :=
  ((pts.map Prod.snd).sum - fitSlope pts * (pts.map (fun p => (p.1 : ℚ))).sum) /
    (pts.length : ℚ)

/-- The fitted line of `forecast_spending` evaluated at day offset `x`
(`model.predict([[x]])`). -/
def fittedAt (expense_data : List Expense) (x : ℤ) : ℚ :=
  fitIntercept (dailyPoints expense_data) + fitSlope (dailyPoints expense_data) * (x : ℚ)

/-- The first historical cumulative spending value (y of the first
regression point). -/
def firstCumulative (expense_data : List Expense) : ℚ :=
  ((dailyPoints expense_data).headD (0, 0)).2

/-- A row of the DataFrame `forecast_spending` returns; `rowType` is its
`type` column ("Historical" or "Forecast"). -/
structure ForecastRow where
  days : ℤ
  amount : ℚ
  rowType : String
deriving DecidableEq, Repr

/-- `MLAnalyzer.forecast_spending`.  The success message quotes the last
predicted value; Python renders it with `:.2f`, here it is kept exact.
(For `forecast_days = 0` Python would fail indexing `[-1]` into an empty
prediction array; every caller uses the default 30.) -/
def forecast_spending (expense_data : List Expense) (forecast_days : ℕ) :
    Option (List ForecastRow) × String :=
  if expense_data.length < 5 then
    (none, "Need at least 5 expenses for an accurate forecast.")
  else
    let pts := dailyPoints expense_data
    if pts.length < 2 then
      (none, "Need expenses on at least 2 different days for a forecast.")
    else
      let last_day : ℤ := maxDate (pts.map Prod.fst)
      let future_days : List ℤ := (List.range forecast_days).map (fun i => last_day + 1 + i)
      let historical : List ForecastRow := pts.map (fun p => ⟨p.1, p.2, "Historical"⟩)
      let forecast : List ForecastRow :=
        future_days.map (fun d => ⟨d, fittedAt expense_data d, "Forecast"⟩)
      (some (historical ++ forecast),
       "Predicted total spending in the next " ++ toString forecast_days ++
         " days could reach around ₹" ++ toString (fittedAt expense_data (last_day + forecast_days)) ++ ".")

/-- The sessions of one `(subject, chapter)` group. -/
def topicSessions (user_data : List Session) (subject chapter : String) : List Session :=
  user_data.filter (fun s => s.subject == subject && s.chapter == chapter)

/-- `MLAnalyzer._calculate_improvement_trend`: mean confidence of the
date-ordered second half minus mean confidence of the first half;
0 below two sessions. -/
def _calculate_improvement_trend (user_data : List Session) (subject chapter : String) : ℚ :=
  let topic_data := sortOn Session.date (topicSessions user_data subject chapter)
  if topic_data.length < 2 then 0
  else
    let mid_point := topic_data.length / 2
    let first_half_avg := listMean ((topic_data.take mid_point).map (fun s => (s.confidence_rating : ℚ)))
    let second_half_avg := listMean ((topic_data.drop mid_point).map (fun s => (s.confidence_rating : ℚ)))
    second_half_avg - first_half_avg

/-- One row of `_prepare_topic_analysis`'s `topic_stats` frame.  The
`confidence_rating_std` column is computed by the `agg` but never read
afterwards (and is irrational in general), so it is not carried. -/
structure TopicRow where
  subject : String
  chapter : String
  confidence_rating_mean : ℚ
  confidence_rating_count : ℕ
  duration_minutes_sum : ℤ
  duration_minutes_mean : ℚ
  date_min : ℤ
  date_max : ℤ
  days_studied : ℤ
  consistency_score : ℚ
  improvement_trend : ℚ
deriving DecidableEq, Repr

/-- The `topic_stats` row of one `(subject, chapter)` group: aggregated
statistics (`.round(2)` on the mean columns), date span, consistency
(count per day of span; `fillna(0)` matches ℚ's 0-valued division by zero),
and improvement trend. -/
def topicRow (user_data : List Session) (subject chapter : String) : TopicRow :=
  let g := topicSessions user_data subject chapter
  let dmin := minDate (g.map Session.date)
  let dmax := maxDate (g.map Session.date)
  let days_studied := dmax - dmin + 1
  { subject := subject
    chapter := chapter
    confidence_rating_mean := pyRound2 (listMean (g.map (fun s => (s.confidence_rating : ℚ))))
    confidence_rating_count := g.length
    duration_minutes_sum := (g.map Session.duration_minutes).sum
    duration_minutes_mean := pyRound2 (listMean (g.map (fun s => (s.duration_minutes : ℚ))))
    date_min := dmin
    date_max := dmax
    days_studied := days_studied
    consistency_score := (g.length : ℚ) / (days_studied : ℚ)
    improvement_trend := _calculate_improvement_trend user_data subject chapter }

/-- The `(subject, chapter)` group keys.  pandas `groupby` sorts keys
lexicographically; the embedding keeps first-occurrence order, which can
only permute rows of the analysis frame (observable solely as the order of
equally-scored topics in the output). -/
def topicKeys (user_data : List Session) : List (String × String) :=
  firstDedup (user_data.map (fun s => (s.subject, s.chapter)))

/-- `MLAnalyzer._prepare_topic_analysis`. -/
def _prepare_topic_analysis (user_data : List Session) : List TopicRow :=
  (topicKeys user_data).map (fun k => topicRow user_data k.1 k.2)

/-- `MLAnalyzer._calculate_weakness_score`. -/
def _calculate_weakness_score (topic : TopicRow) : ℚ :=
  let confidence_factor := (5 - topic.confidence_rating_mean) / 4
  let trend_factor := max 0 (-topic.improvement_trend / 2)
  let consistency_factor := 1 - min 1 topic.consistency_score
  confidence_factor * (1/2) + trend_factor * (3/10) + consistency_factor * (1/5)

/-- A weak-topic entry as returned by `_identify_weak_topics`. -/
structure WeakTopic where
  subject : String
  chapter : String
  avg_confidence : ℚ
  total_time : ℤ
  sessions : ℕ
  improvement_trend : ℚ
  weakness_score : ℚ
deriving DecidableEq, Repr

/-- `MLAnalyzer._identify_weak_topics`: the weakness criteria, the
`min_sessions_for_analysis` filter, and the stable descending sort by
weakness score. -/
def _identify_weak_topics (topic_analysis : List TopicRow) : List WeakTopic :=
  let weak := topic_analysis.filter (fun t => decide
    ((t.confidence_rating_mean < weakness_threshold ∨
      (t.improvement_trend < -(1/2) ∧ 3 ≤ t.confidence_rating_count) ∨
      (t.consistency_score < 3/10 ∧ 2 ≤ t.confidence_rating_count)) ∧
     min_sessions_for_analysis ≤ t.confidence_rating_count))
  sortScoreDesc WeakTopic.weakness_score (weak.map (fun t =>
    { subject := t.subject
      chapter := t.chapter
      avg_confidence := t.confidence_rating_mean
      total_time := t.duration_minutes_sum
      sessions := t.confidence_rating_count
      improvement_trend := t.improvement_trend
      weakness_score := _calculate_weakness_score t }))

/-- Result of `MLAnalyzer._predict_performance_trends`. -/
inductive PerfPred where
  | insufficient_history
  | success (confidence_trend time_trend recent_performance : ℚ)
deriving DecidableEq, Repr

/-- `MLAnalyzer._predict_performance_trends`: daily mean confidence and
total duration, then last-7-rows versus first-7-rows comparison.  The
3-day rolling averages the code computes are dead stores (never read) and
are not carried. -/
def _predict_performance_trends (user_data : List Session) : PerfPred :=
  let dates := (sortOn (fun d => d) (user_data.map Session.date)).dedup
  let rows := dates.map (fun d =>
    let day := user_data.filter (fun s => s.date == d)
    (listMean (day.map (fun s => (s.confidence_rating : ℚ))),
     ((day.map Session.duration_minutes).sum : ℚ)))
  if rows.length < 7 then .insufficient_history
  else
    let recent_confidence := listMean ((rows.drop (rows.length - 7)).map Prod.fst)
    let older_confidence := listMean ((rows.take 7).map Prod.fst)
    let recent_time := listMean ((rows.drop (rows.length - 7)).map Prod.snd)
    let older_time := listMean ((rows.take 7).map Prod.snd)
    .success (recent_confidence - older_confidence) (recent_time - older_time) recent_confidence

/-- Weekday names, Monday first; day 0 of the integer calendar is a
Thursday (1970-01-01). -/
def dayNamesMonFirst : List String :=
  ["Monday", "Tuesday", "Wednesday", "Thursday", "Friday", "Saturday", "Sunday"]

/-- `pd.to_datetime(date).dt.day_name()`. -/
def dayName (d : ℤ) : String := dayNamesMonFirst.getD ((d + 3) % 7).toNat ""

/-- The seven weekday names in the alphabetical order pandas `groupby`
uses for its string keys (`idxmax` then picks the first maximising key in
that order). -/
def dayNamesAlpha : List String :=
  ["Friday", "Monday", "Saturday", "Sunday", "Thursday", "Tuesday", "Wednesday"]

/-- The study-pattern summary of `_analyze_study_patterns` (the study
DataFrame always carries a `timestamp` column, so the peak-hour branch
always runs). -/
structure Patterns where
  peak_hours : ℤ
  most_productive_day : String
  avg_session_length : ℚ
  preferred_session_length : ℚ
  subject_diversity : ℕ
  most_studied_subject : String
deriving DecidableEq, Repr

/-- `MLAnalyzer._analyze_study_patterns`.  `.getD` defaults cover only the
empty log, which the call site (≥ 5 sessions) excludes. -/
def _analyze_study_patterns (user_data : List Session) : Patterns :=
  let hours := (sortOn (fun h => h) (user_data.map Session.timestampHour)).dedup
  let days_present := dayNamesAlpha.filter (fun nm => user_data.any (fun s => dayName s.date == nm))
  let durations := user_data.map Session.duration_minutes
  let avg := listMean (durations.map (fun d => (d : ℚ)))
  let modes := (sortOn (fun d => d) durations).dedup
  let subjects := firstDedup (user_data.map Session.subject)
  { peak_hours := (argmaxBy (fun h =>
      (((user_data.filter (fun s => s.timestampHour == h)).map Session.duration_minutes).sum : ℚ)) hours).getD 0
    most_productive_day := (argmaxBy (fun nm =>
      listMean ((user_data.filter (fun s => dayName s.date == nm)).map
        (fun s => (s.confidence_rating : ℚ)))) days_present).getD ""
    avg_session_length := avg
    preferred_session_length := ((argmaxBy (fun d =>
      ((durations.filter (fun x => x == d)).length : ℚ)) modes).map (fun d => (d : ℚ))).getD avg
    subject_diversity := subjects.length
    most_studied_subject := (argmaxBy (fun sub =>
      (((user_data.filter (fun s => s.subject == sub)).map Session.duration_minutes).sum : ℚ)) subjects).getD "" }

/-- The insight dictionary `_generate_ml_insights` builds: the
below-three-groups early return, or the full dictionary.  The k-means
cluster labels are randomized floating-point output and are never read by
`_generate_recommendations`; only the cluster count is carried. -/
inductive Insights where
  | insufficient_data
  | full (n_clusters : ℕ) (performance_prediction : PerfPred) (study_patterns : Patterns)
deriving DecidableEq, Repr

/-- `MLAnalyzer._generate_ml_insights`. -/
def _generate_ml_insights (user_data : List Session) (topic_analysis : List TopicRow) : Insights :=
  if topic_analysis.length < 3 then .insufficient_data
  else
    .full (min 4 (max 2 (topic_analysis.length / 2)))
      (_predict_performance_trends user_data)
      (_analyze_study_patterns user_data)

/-- `MLAnalyzer._generate_recommendations`: the ordered rule-based message
list, the positive fallback when no rule fires, truncated to six. -/
def _generate_recommendations (weak_topics : List WeakTopic) (insights : Insights)
    (user_data : List Session) : List String :=
  let recs1 : List String :=
    if weak_topics.isEmpty then []
    else
      let top_weak := weak_topics.take 3
      ("Focus on these weak areas: " ++
        String.intercalate ", " (top_weak.map (fun t => t.subject ++ " - " ++ t.chapter))) ::
      top_weak.filterMap (fun t =>
        if t.improvement_trend < 0 then
          some (" " ++ t.subject ++ " - " ++ t.chapter ++
            ": Try different study methods, confidence is declining")
        else if t.sessions < 5 then
          some (" " ++ t.subject ++ " - " ++ t.chapter ++ ": Needs more practice sessions")
        else none)
  let recs2 : List String :=
    match insights with
    | .full _ _ patterns =>
      ("You perform best on " ++ patterns.most_productive_day ++
        "s - consider scheduling important topics then") ::
      (if patterns.avg_session_length < 20 then
        ["Consider longer study sessions (20-45 minutes) for better retention"]
      else if 90 < patterns.avg_session_length then
        ["Break down long sessions into smaller chunks with breaks"]
      else [])
    | _ => []
  let recs3 : List String :=
    match insights with
    | .full _ (.success confidence_trend time_trend _) _ =>
      (if confidence_trend < -(1/5) then
        ["Your confidence has been declining recently - consider reviewing fundamentals"]
      else if (1/5) < confidence_trend then
        ["Great progress! Your confidence is improving - keep up the momentum"]
      else []) ++
      (if time_trend < -10 then
        ["You've been studying less lately - try to maintain consistency"]
      else [])
    | _ => []
  let recs4 : List String :=
    if 10 ≤ user_data.length then
      let recent_consistency :=
        (user_data.filter (fun s => decide (maxDate (user_data.map Session.date) - 7 ≤ s.date))).length
      if recent_consistency < 3 then
        ["Try to study more consistently - aim for at least 3 sessions per week"]
      else []
    else []
  let subject_count := (firstDedup (user_data.map Session.subject)).length
  let recs5 : List String :=
    if subject_count = 1 then ["Consider diversifying your subjects to maintain engagement"]
    else if 5 < subject_count then
      ["You're studying many subjects - ensure you're giving enough attention to each"]
    else []
  let recommendations := recs1 ++ recs2 ++ recs3 ++ recs4 ++ recs5
  let recommendations :=
    if recommendations.isEmpty then
      recommendations ++ ["Great job! No major issues detected. Keep maintaining your study routine!"]
    else recommendations
  recommendations.take 6

/-- `MLAnalyzer.analyze_weaknesses`.  The embedding is a total function,
so the `except` fallback branch of the Python code is unreachable. -/
def analyze_weaknesses (user_data : List Session) : List WeakTopic × List String :=
  if user_data.isEmpty ∨ user_data.length < 5 then
    ([], ["Need more study sessions for accurate analysis."])
  else
    let topic_analysis := _prepare_topic_analysis user_data
    let weak_topics := _identify_weak_topics topic_analysis
    let insights := _generate_ml_insights user_data topic_analysis
    (weak_topics, _generate_recommendations weak_topics insights user_data)

/-- The return value of `GamificationSystem.get_level_progress`; the two
`Option` fields are the keys absent from the max-level branch of the
Python dict. -/
structure LevelProgress where
  current_level : ℕ
  progress : ℚ
  xp_to_next : ℤ
  current_xp : Option ℤ
  required_xp : Option ℤ
deriving DecidableEq, Repr

/-- The unrounded `progress_percentage` of `get_level_progress`:
`(progress_xp / required_xp) * 100` over the current level band. -/
def progress_percentage (total_xp : ℤ) : ℚ :=
  let current_level := get_level total_xp
  let current_threshold := if 1 < current_level then level_thresholds.getD (current_level - 1) 0 else 0
  let next_threshold := level_thresholds.getD current_level 0
  (((total_xp - current_threshold : ℤ) : ℚ) / ((next_threshold - current_threshold : ℤ) : ℚ)) * 100

/-- `GamificationSystem.get_level_progress` (the returned `progress` is
`round(progress_percentage, 1)`). -/
def get_level_progress (total_xp : ℤ) : LevelProgress :=
  let current_level := get_level total_xp
  if level_thresholds.length ≤ current_level then
    { current_level := current_level, progress := 100, xp_to_next := 0,
      current_xp := none, required_xp := none }
  else
    let current_threshold := if 1 < current_level then level_thresholds.getD (current_level - 1) 0 else 0
    let next_threshold := level_thresholds.getD current_level 0
    { current_level := current_level
      progress := pyRound1 (progress_percentage total_xp)
      xp_to_next := next_threshold - total_xp
      current_xp := some (total_xp - current_threshold)
      required_xp := some (next_threshold - current_threshold) }

/-! ## Basic facts about the Python numeric primitives -/

theorem pytrunc_eq_floor_of_nonneg {q : ℚ} (h : 0 ≤ q) : pytrunc q = ⌊q⌋ := if_pos h

theorem pytrunc_nonpos {q : ℚ} (h : q ≤ 0) : pytrunc q ≤ 0 := by
  unfold pytrunc
  split
  · exact Int.floor_nonpos h
  · exact Int.ceil_le.mpr (by exact_mod_cast h)

theorem pytrunc_mono {x y : ℚ} (h : x ≤ y) : pytrunc x ≤ pytrunc y := by
  unfold pytrunc
  split
  · rw [if_pos (le_trans (by assumption) h)]
    exact Int.floor_le_floor h
  · split
    · calc (⌈x⌉ : ℤ) ≤ 0 := Int.ceil_le.mpr (by push_cast; linarith)
        _ ≤ ⌊y⌋ := Int.floor_nonneg.mpr (by assumption)
    · exact Int.ceil_le_ceil h

/-- Truncation toward zero and flooring agree once clamped from below by 5:
they coincide on nonnegative arguments, and below zero both fall under the
clamp. -/
theorem max_five_pytrunc_eq_floor (q : ℚ) : max 5 (pytrunc q) = max 5 ⌊q⌋ := by
  rcases le_or_lt 0 q with h | h
  · rw [pytrunc_eq_floor_of_nonneg h]
  · rw [max_eq_left (le_trans (pytrunc_nonpos h.le) (by norm_num)),
      max_eq_left (le_trans (Int.floor_nonpos h.le) (by norm_num))]

theorem pyRoundHalfEven_ge_floor (x : ℚ) : ⌊x⌋ ≤ pyRoundHalfEven x := by
  simp only [pyRoundHalfEven]
  split_ifs <;> omega

theorem pyRoundHalfEven_le_floor_add_one (x : ℚ) : pyRoundHalfEven x ≤ ⌊x⌋ + 1 := by
  simp only [pyRoundHalfEven]
  split_ifs <;> omega

theorem pyRoundHalfEven_mono {x y : ℚ} (h : x ≤ y) :
    pyRoundHalfEven x ≤ pyRoundHalfEven y := by
  have hf : (⌊x⌋ : ℤ) ≤ ⌊y⌋ := Int.floor_le_floor h
  rcases lt_or_eq_of_le hf with hlt | heq
  · calc pyRoundHalfEven x ≤ ⌊x⌋ + 1 := pyRoundHalfEven_le_floor_add_one x
      _ ≤ ⌊y⌋ := by omega
      _ ≤ pyRoundHalfEven y := pyRoundHalfEven_ge_floor y
  · have hfrac : x - (⌊x⌋ : ℚ) ≤ y - (⌊x⌋ : ℚ) := by linarith
    simp only [pyRoundHalfEven]
    rw [← heq]
    split_ifs <;> first | omega | linarith

theorem pyRound1_mono {x y : ℚ} (h : x ≤ y) : pyRound1 x ≤ pyRound1 y := by
  unfold pyRound1
  have h1 : pyRoundHalfEven (x * 10) ≤ pyRoundHalfEven (y * 10) :=
    pyRoundHalfEven_mono (by linarith)
  have h2 : ((pyRoundHalfEven (x * 10) : ℚ)) ≤ (pyRoundHalfEven (y * 10) : ℚ) := by
    exact_mod_cast h1
  linarith

/-- `pandas.round(2)` keeps a value inside `[1, 5]`. -/
theorem pyRound2_mem_Icc {q : ℚ} (h1 : 1 ≤ q) (h5 : q ≤ 5) :
    1 ≤ pyRound2 q ∧ pyRound2 q ≤ 5 := by
  unfold pyRound2
  have hlb : (100 : ℤ) ≤ ⌊q * 100⌋ := by
    have : ((100:ℤ) : ℚ) ≤ q * 100 := by push_cast; linarith
    exact Int.le_floor.mpr this
  have hub : (⌊q * 100⌋ : ℤ) ≤ 500 := by
    have : ⌊q * 100⌋ ≤ ⌊(500 : ℚ)⌋ := Int.floor_le_floor (by linarith)
    simpa using this
  constructor
  · have := pyRoundHalfEven_ge_floor (q * 100)
    rw [le_div_iff₀ (by norm_num : (0:ℚ) < 100)]
    have : ((100:ℤ) : ℚ) ≤ (pyRoundHalfEven (q * 100) : ℚ) := by exact_mod_cast by omega
    push_cast at this
    linarith
  · rcases lt_or_eq_of_le hub with hlt | heq
    · have := pyRoundHalfEven_le_floor_add_one (q * 100)
      rw [div_le_iff₀ (by norm_num : (0:ℚ) < 100)]
      have h500 : pyRoundHalfEven (q * 100) ≤ 500 := by omega
      calc (pyRoundHalfEven (q * 100) : ℚ) ≤ ((500:ℤ) : ℚ) := by exact_mod_cast h500
        _ = 5 * 100 := by norm_num
    · have hq : q * 100 = 500 := by
        have h1 : ((500:ℤ) : ℚ) ≤ q * 100 := by rw [← heq]; exact Int.floor_le _
        have h2 : q * 100 ≤ 500 := by linarith
        push_cast at h1
        linarith
      rw [hq]
      norm_num [pyRoundHalfEven]

/-! ## Claim C1 — session XP formula -/

/-- C1, counterexample: the claim (and spec §8) asserts
`session_xp(30, 3, 0) = 180`, but the code computes
`int(30 × 2 × 1.0 × (1 + 0)) = 60`. -/
theorem session_xp_30_3_0_ne_180 : calculate_session_xp 30 3 0 ≠ 180 := by
  norm_num [calculate_session_xp, pytrunc, confidence_multiplier, base_xp_per_minute,
    streak_bonus_multiplier]

/-- C1, amended: for all integer inputs,
`session_xp(duration, confidence, streak)` equals
`max(5, floor(duration · 2 · m(confidence) · (1 + min(0.5, streak · 0.1))))`
with `m` the confidence lookup table defaulting to 1.0 — and the concrete
values are `session_xp(30, 3, 0) = 60` (not 180) and
`session_xp(1, 1, 0) = 5`. -/
theorem session_xp_formula :
    (∀ duration confidence streak : ℤ,
      calculate_session_xp duration confidence streak =
        max 5 ⌊(duration : ℚ) * 2 * confidence_multiplier confidence *
          (1 + min (1/2) ((streak : ℚ) * (1/10)))⌋) ∧
    calculate_session_xp 30 3 0 = 60 ∧ calculate_session_xp 1 1 0 = 5 := by
  refine ⟨fun duration confidence streak => ?_, ?_, ?_⟩
  · unfold calculate_session_xp base_xp_per_minute streak_bonus_multiplier
    rw [max_five_pytrunc_eq_floor]
    push_cast
    ring_nf
  · norm_num [calculate_session_xp, pytrunc, confidence_multiplier, base_xp_per_minute,
      streak_bonus_multiplier]
  · norm_num [calculate_session_xp, pytrunc, confidence_multiplier, base_xp_per_minute,
      streak_bonus_multiplier]

/-! ## Levels: the threshold walk as a clamped count -/

theorem getLevelGo_eq_countP (xp : ℤ) :
    ∀ (ts : List ℤ) (lvl : ℕ), ts.Sorted (· ≤ ·) →
      getLevelGo xp ts lvl =
        if ts.countP (fun t => decide (t ≤ xp)) = ts.length then level_thresholds.length
        else max 1 (lvl + ts.countP (fun t => decide (t ≤ xp))) := by
  intro ts
  induction ts with
  | nil => intro lvl _; simp [getLevelGo]
  | cons t ts ih =>
    intro lvl hsorted
    obtain ⟨hhead, htail⟩ := List.sorted_cons.mp hsorted
    rw [getLevelGo, List.countP_cons]
    by_cases hxp : xp < t
    · rw [if_pos hxp]
      have hpt : (decide (t ≤ xp)) = false := by simp; omega
      have hcount : ts.countP (fun t => decide (t ≤ xp)) = 0 := by
        rw [List.countP_eq_zero]
        intro a ha
        have := hhead a ha
        simp
        omega
      rw [hpt, hcount]
      simp
    · rw [if_neg hxp, ih (lvl + 1) htail]
      have hpt : (decide (t ≤ xp)) = true := by simp; omega
      rw [hpt]
      simp only [if_true, List.length_cons]
      by_cases hfull : ts.countP (fun t => decide (t ≤ xp)) = ts.length
      · rw [if_pos hfull, if_pos (by omega)]
      · rw [if_neg hfull, if_neg (by omega)]
        congr 1
        omega

/-- `get_level` equals the count of thresholds `≤ total_xp`, clamped to
`[1, 21]`. -/
theorem get_level_eq_clamped_count (xp : ℤ) :
    get_level xp = min 21 (max 1 (level_thresholds.countP (fun t => decide (t ≤ xp)))) := by
  have hsorted : level_thresholds.Sorted (· ≤ ·) := by decide
  have hle : level_thresholds.countP (fun t => decide (t ≤ xp)) ≤ level_thresholds.length :=
    List.countP_le_length _
  have hlen : level_thresholds.length = 21 := by decide
  rw [get_level, getLevelGo_eq_countP xp level_thresholds 0 hsorted]
  by_cases hfull : level_thresholds.countP (fun t => decide (t ≤ xp)) = level_thresholds.length
  · rw [if_pos hfull, hlen]
    rw [hlen] at hfull
    rw [hfull]
    decide
  · rw [if_neg hfull]
    rw [hlen] at hfull hle
    omega

theorem get_level_mono {xp xp' : ℤ} (h : xp ≤ xp') : get_level xp ≤ get_level xp' := by
  rw [get_level_eq_clamped_count, get_level_eq_clamped_count]
  have : level_thresholds.countP (fun t => decide (t ≤ xp)) ≤
      level_thresholds.countP (fun t => decide (t ≤ xp')) := by
    apply List.countP_mono_left
    intro a _ ha
    simp at ha ⊢
    omega
  omega

theorem one_le_get_level (xp : ℤ) : 1 ≤ get_level xp := by
  rw [get_level_eq_clamped_count]; omega

/-! ## Claim C4 — level boundary values and saturation -/

/-- C4: `level(0) = 1`, `level(99) = 1`, `level(100) = 2`,
`level(15300) = 21`, `level(999999) = 21`, and every `total_xp ≥ 15300`
saturates at level 21.  (`get_level` is a total function, so no input can
raise.) -/
theorem level_boundaries_and_saturation :
    get_level 0 = 1 ∧ get_level 99 = 1 ∧ get_level 100 = 2 ∧
    get_level 15300 = 21 ∧ get_level 999999 = 21 ∧
    ∀ xp : ℤ, 15300 ≤ xp → get_level xp = 21 := by
  refine ⟨by decide, by decide, by decide, by decide, by decide, fun xp hxp => ?_⟩
  rw [get_level_eq_clamped_count]
  have hfull : level_thresholds.countP (fun t => decide (t ≤ xp)) = level_thresholds.length := by
    rw [List.countP_eq_length]
    intro a ha
    simp only [decide_eq_true_eq]
    simp only [level_thresholds] at ha
    simp at ha
    omega
  rw [hfull]
  decide

/-- C4, witness: the saturation clause applied at `total_xp = 20000`. -/
theorem level_boundaries_and_saturation_witness : get_level 20000 = 21 :=
  level_boundaries_and_saturation.2.2.2.2.2 20000 (by decide)

/-! ## Claim C5 — the closed form of `get_level` -/

/-- The level formula exactly as claim C5 words it:
`1 +` the count of thresholds `≤ total_xp`, clamped to `[1, 21]`. -/
def claimedLevelC5 (total_xp : ℤ) : ℕ :=
  min 21 (max 1 (1 + level_thresholds.countP (fun t => decide (t ≤ total_xp))))

/-- C5, counterexample: at `total_xp = 0` the claimed formula
`1 + #{thresholds ≤ 0} = 2` disagrees with the code's `level(0) = 1` —
the claim's `1 +` is an off-by-one. -/
theorem get_level_ne_claimedLevelC5_at_zero : get_level 0 ≠ claimedLevelC5 0 := by
  decide

/-- C5, amended: for every non-negative `total_xp`, the level is the count
of thresholds `≤ total_xp` (without the claim's extra `1 +`), clamped to
`[1, 21]`. -/
theorem get_level_closed_form (total_xp : ℤ) (h : 0 ≤ total_xp) :
    get_level total_xp =
      min 21 (max 1 (level_thresholds.countP (fun t => decide (t ≤ total_xp)))) :=
  get_level_eq_clamped_count total_xp

/-- C5, witness: the closed form evaluated at `total_xp = 500`. -/
theorem get_level_closed_form_witness :
    get_level 500 = min 21 (max 1 (level_thresholds.countP (fun t => decide (t ≤ (500:ℤ))))) :=
  get_level_closed_form 500 (by decide)

/-! ## Streak lemmas -/

theorem runFrom_mono {S T : Finset ℤ} (hST : S ⊆ T) :
    ∀ {n m : ℕ}, n ≤ m → ∀ d, runFrom S d n ≤ runFrom T d m := by
  intro n
  induction n with
  | zero => intro m _ d; simp [runFrom]
  | succ k ih =>
    intro m hnm d
    obtain ⟨m', rfl⟩ : ∃ m', m = m' + 1 := ⟨m - 1, by omega⟩
    rw [runFrom, runFrom]
    by_cases hd : d ∈ S
    · rw [if_pos hd, if_pos (hST hd)]
      have := ih (by omega : k ≤ m') (d - 1)
      omega
    · rw [if_neg hd]
      exact Nat.zero_le _

theorem calculate_streak_eq_zero {dates : Finset ℤ} {now : ℤ}
    (h1 : now ∉ dates) (h2 : now - 1 ∉ dates) : calculate_streak dates now = 0 := by
  by_cases hne : dates.Nonempty
  · rw [calculate_streak, dif_pos hne]
    simp only
    rw [if_neg]
    rintro (hmax | hmax)
    · exact h1 (hmax ▸ dates.max'_mem hne)
    · exact h2 (hmax ▸ dates.max'_mem hne)
  · rw [calculate_streak, dif_neg hne]

theorem calculate_streak_eq_specStreak {dates : Finset ℤ} {now : ℤ}
    (hle : ∀ d ∈ dates, d ≤ now) : calculate_streak dates now = specStreak dates now := by
  by_cases hne : dates.Nonempty
  · have hmax_mem := dates.max'_mem hne
    rw [calculate_streak, dif_pos hne]
    simp only
    by_cases h1 : dates.max' hne = now
    · rw [if_pos (Or.inl h1), specStreak, if_pos (h1 ▸ hmax_mem), h1]
    · have hnow : now ∉ dates := fun hmem =>
        h1 (le_antisymm (hle _ hmax_mem) (Finset.le_max' dates now hmem))
      by_cases h2 : dates.max' hne = now - 1
      · rw [if_pos (Or.inr h2), specStreak, if_neg hnow, if_pos (h2 ▸ hmax_mem), h2]
      · have hyest : now - 1 ∉ dates := fun hmem =>
          h2 (le_antisymm (by have := hle _ hmax_mem; omega)
            (Finset.le_max' dates (now - 1) hmem))
        rw [if_neg (by rintro (h | h) <;> [exact h1 h; exact h2 h]),
          specStreak, if_neg hnow, if_neg hyest]
  · have hempty : dates = ∅ := Finset.not_nonempty_iff_eq_empty.mp hne
    subst hempty
    rw [calculate_streak, dif_neg (by simp), specStreak]
    simp

theorem calculate_streak_run_three (d : ℤ) : calculate_streak {d, d - 1, d - 2} d = 3 := by
  have hne : ({d, d - 1, d - 2} : Finset ℤ).Nonempty := ⟨d, by simp⟩
  have hmax : ({d, d - 1, d - 2} : Finset ℤ).max' hne = d := by
    apply le_antisymm
    · apply Finset.max'_le
      intro y hy
      simp at hy
      rcases hy with rfl | rfl | rfl <;> omega
    · exact Finset.le_max' _ d (by simp)
  have hcard : ({d, d - 1, d - 2} : Finset ℤ).card = 3 := by
    rw [Finset.card_insert_of_not_mem
        (by simp only [Finset.mem_insert, Finset.mem_singleton]; omega),
      Finset.card_insert_of_not_mem (by simp only [Finset.mem_singleton]; omega),
      Finset.card_singleton]
  rw [calculate_streak, dif_pos hne]
  simp only
  rw [hmax, if_pos (Or.inl rfl), hcard]
  rw [runFrom, if_pos (by simp)]
  rw [runFrom, if_pos (by simp : d - 1 ∈ ({d, d - 1, d - 2} : Finset ℤ))]
  rw [runFrom, if_pos (by simp only [Finset.mem_insert, Finset.mem_singleton]; omega :
    d - 1 - 1 ∈ ({d, d - 1, d - 2} : Finset ℤ))]
  simp [runFrom]

theorem calculate_streak_gap_one (d : ℤ) : calculate_streak {d, d - 2} d = 1 := by
  have hne : ({d, d - 2} : Finset ℤ).Nonempty := ⟨d, by simp⟩
  have hmax : ({d, d - 2} : Finset ℤ).max' hne = d := by
    apply le_antisymm
    · apply Finset.max'_le
      intro y hy
      simp at hy
      rcases hy with rfl | rfl <;> omega
    · exact Finset.le_max' _ d (by simp)
  have hcard : ({d, d - 2} : Finset ℤ).card = 2 := by
    rw [Finset.card_insert_of_not_mem (by simp only [Finset.mem_singleton]; omega),
      Finset.card_singleton]
  rw [calculate_streak, dif_pos hne]
  simp only
  rw [hmax, if_pos (Or.inl rfl), hcard]
  rw [runFrom, if_pos (by simp)]
  rw [runFrom, if_neg (by simp only [Finset.mem_insert, Finset.mem_singleton]; omega :
    d - 1 ∉ ({d, d - 2} : Finset ℤ))]

/-! ## Claim C2 — streak from an explicit evaluation date -/

/-- C2, counterexample: with a date later than `now` in the set
(`dates = {0, 5}`, `now = 0`), `now` is present, so the claim's walk from
"the most recent present date (now if present)" yields 1, but the code
keys off the latest date overall (5, which is neither `now` nor
`now − 1`) and returns 0. -/
theorem streak_future_date_counterexample :
    (0 : ℤ) ∈ ({0, 5} : Finset ℤ) ∧ specStreak {0, 5} 0 = 1 ∧
      calculate_streak {0, 5} 0 = 0 := by
  decide

/-- C2, amended: restricted to date sets with no date after `now`
(equivalently, keyed off the most recent date in the set), the claim holds:
the streak is 0 when neither `now` nor `now − 1` is present (this clause
needs no restriction), the code agrees with the spec's walk-backward
procedure whenever every date is `≤ now`, and
`streak({d, d−1, d−2}, d) = 3`, `streak({d, d−2}, d) = 1`. -/
theorem streak_spec_behaviour :
    (∀ (dates : Finset ℤ) (now : ℤ), now ∉ dates → now - 1 ∉ dates →
      calculate_streak dates now = 0) ∧
    (∀ (dates : Finset ℤ) (now : ℤ), (∀ d ∈ dates, d ≤ now) →
      calculate_streak dates now = specStreak dates now) ∧
    (∀ d : ℤ, calculate_streak {d, d - 1, d - 2} d = 3) ∧
    (∀ d : ℤ, calculate_streak {d, d - 2} d = 1) :=
  ⟨fun _ _ h1 h2 => calculate_streak_eq_zero h1 h2,
   fun _ _ hle => calculate_streak_eq_specStreak hle,
   calculate_streak_run_three, calculate_streak_gap_one⟩

/-- C2, witness: the zero clause at `dates = {3}`, `now = 5`, and the
agreement clause at `dates = {0}`, `now = 0`. -/
theorem streak_spec_behaviour_witness :
    calculate_streak ({3} : Finset ℤ) 5 = 0 ∧
      calculate_streak ({0} : Finset ℤ) 0 = specStreak {0} 0 :=
  ⟨streak_spec_behaviour.1 {3} 5 (by decide) (by decide),
   streak_spec_behaviour.2.1 {0} 0 (by decide)⟩

/-! ## Claim C3 — monotonicity under appending a session -/

theorem five_le_calculate_session_xp (duration confidence streak : ℤ) :
    5 ≤ calculate_session_xp duration confidence streak :=
  le_max_left _ _

theorem max_five_pytrunc_mono_bonus (P : ℚ) {b b' : ℚ} (hb0 : 0 ≤ b) (hbb : b ≤ b') :
    max 5 (pytrunc (P * (1 + b))) ≤ max 5 (pytrunc (P * (1 + b'))) := by
  rcases le_or_lt 0 P with hP | hP
  · exact max_le_max (le_refl 5)
      (pytrunc_mono (mul_le_mul_of_nonneg_left (by linarith) hP))
  · have hA : P * (1 + b) ≤ 0 := mul_nonpos_iff.mpr (Or.inr ⟨hP.le, by linarith⟩)
    have hB : P * (1 + b') ≤ 0 := mul_nonpos_iff.mpr (Or.inr ⟨hP.le, by linarith⟩)
    rw [max_eq_left (le_trans (pytrunc_nonpos hA) (by norm_num)),
      max_eq_left (le_trans (pytrunc_nonpos hB) (by norm_num))]

/-- With a nonnegative streak, session XP is monotone in the streak. -/
theorem calculate_session_xp_mono_streak (duration confidence : ℤ) {s s' : ℤ}
    (h0 : 0 ≤ s) (hss : s ≤ s') :
    calculate_session_xp duration confidence s ≤ calculate_session_xp duration confidence s' := by
  unfold calculate_session_xp
  apply max_five_pytrunc_mono_bonus
  · exact le_min (by norm_num [streak_bonus_multiplier])
      (mul_nonneg (by exact_mod_cast h0) (by norm_num [streak_bonus_multiplier]))
  · exact min_le_min (le_refl _)
      (mul_le_mul_of_nonneg_right (by exact_mod_cast hss)
        (by norm_num [streak_bonus_multiplier]))

/-- Growing the date set never lowers the as-of-date streak. -/
theorem streakForDate_mono {S T : Finset ℤ} (hST : S ⊆ T) (d : ℤ) :
    streakForDate S d ≤ streakForDate T d := by
  unfold streakForDate
  simp only
  by_cases hS : (S.filter (fun x => x ≤ d)).Nonempty
  · rw [dif_pos hS]
    by_cases hmax : (S.filter (fun x => x ≤ d)).max' hS = d
    · have hdS : d ∈ S.filter (fun x => x ≤ d) := by
        have hm := Finset.max'_mem _ hS
        rwa [hmax] at hm
      have hsub : S.filter (fun x => x ≤ d) ⊆ T.filter (fun x => x ≤ d) :=
        Finset.filter_subset_filter _ hST
      have hdT : d ∈ T.filter (fun x => x ≤ d) := hsub hdS
      have hT : (T.filter (fun x => x ≤ d)).Nonempty := ⟨d, hdT⟩
      have hmaxT : (T.filter (fun x => x ≤ d)).max' hT = d := by
        apply le_antisymm
        · exact Finset.max'_le _ _ _ (fun y hy => (Finset.mem_filter.mp hy).2)
        · exact Finset.le_max' _ _ hdT
      rw [if_pos hmax, dif_pos hT, if_pos hmaxT]
      exact runFrom_mono hsub (Finset.card_le_card hsub) d
    · rw [if_neg hmax]
      exact Nat.zero_le _
  · rw [dif_neg hS]
    exact Nat.zero_le _

theorem sessionDates_append_subset (log : List Session) (s : Session) :
    sessionDates log ⊆ sessionDates (log ++ [s]) := by
  unfold sessionDates
  rw [List.map_append, List.toFinset_append]
  exact Finset.subset_union_left

theorem calculate_total_xp_append_mono (log : List Session) (s : Session) :
    calculate_total_xp log ≤ calculate_total_xp (log ++ [s]) := by
  unfold calculate_total_xp
  rw [List.map_append, List.sum_append]
  have hsub := sessionDates_append_subset log s
  have h1 : (log.map (fun x => calculate_session_xp x.duration_minutes x.confidence_rating
      (streakForDate (sessionDates log) x.date : ℤ))).sum ≤
      (log.map (fun x => calculate_session_xp x.duration_minutes x.confidence_rating
        (streakForDate (sessionDates (log ++ [s])) x.date : ℤ))).sum := by
    apply List.sum_le_sum
    intro x _
    apply calculate_session_xp_mono_streak
    · exact_mod_cast Nat.zero_le _
    · exact_mod_cast streakForDate_mono hsub x.date
  have h2 : (0:ℤ) ≤ ([s].map (fun x => calculate_session_xp x.duration_minutes
      x.confidence_rating (streakForDate (sessionDates (log ++ [s])) x.date : ℤ))).sum := by
    simp only [List.map_cons, List.map_nil, List.sum_cons, List.sum_nil, add_zero]
    exact le_trans (by norm_num) (five_le_calculate_session_xp _ _ _)
  linarith

/-- C3: appending a single session to any session log never decreases the
total XP, never decreases the level derived from it, and never decreases
the streak recomputed as of any date (in particular as of the other
sessions' dates). -/
theorem xp_level_monotone_under_append (log : List Session) (s : Session) :
    calculate_total_xp log ≤ calculate_total_xp (log ++ [s]) ∧
    get_level (calculate_total_xp log) ≤ get_level (calculate_total_xp (log ++ [s])) ∧
    ∀ d : ℤ, streakForDate (sessionDates log) d ≤
      streakForDate (sessionDates (log ++ [s])) d :=
  ⟨calculate_total_xp_append_mono log s,
   get_level_mono (calculate_total_xp_append_mono log s),
   fun d => streakForDate_mono (sessionDates_append_subset log s) d⟩

/-! ## Claim C7 — progress within a level band -/

theorem threshold_band_gap : ∀ L : Fin 21, 1 ≤ L.val →
    (if 1 < L.val then level_thresholds.getD (L.val - 1) 0 else 0) <
      level_thresholds.getD L.val 0 := by
  decide

/-- C7, counterexample: the returned progress percent is rounded to one
decimal, so inside the widest band two different XP values can report the
same percent: 13601 and 13602 are both level 20 and both report 0.1%. -/
theorem level_progress_rounding_plateau :
    get_level 13601 = get_level 13602 ∧ (13601 : ℤ) < 13602 ∧
      (get_level_progress 13601).progress = (get_level_progress 13602).progress := by
  refine ⟨by decide, by decide, ?_⟩
  norm_num [get_level_progress, progress_percentage, pyRound1, pyRoundHalfEven,
    level_thresholds, get_level, getLevelGo]

/-- C7, amended: within one level band (below the max level) the
*unrounded* progress percentage strictly increases with XP, and the
*returned* rounded percent is non-decreasing (strictness can be lost to
the one-decimal rounding); entering a new level resets the percentage to
exactly 0 at each threshold. -/
theorem level_progress_monotone :
    (∀ xp1 xp2 : ℤ, get_level xp1 < 21 → get_level xp1 = get_level xp2 → xp1 < xp2 →
      progress_percentage xp1 < progress_percentage xp2 ∧
      (get_level_progress xp1).progress ≤ (get_level_progress xp2).progress) ∧
    (∀ i : Fin 20, progress_percentage (level_thresholds.getD (i.val + 1) 0) = 0) := by
  constructor
  · intro xp1 xp2 hlt heq hxp
    have h1L : 1 ≤ get_level xp1 := one_le_get_level xp1
    have hgap := threshold_band_gap ⟨get_level xp1, by omega⟩ h1L
    simp only at hgap
    have hraw : progress_percentage xp1 < progress_percentage xp2 := by
      simp only [progress_percentage]
      rw [← heq]
      have hQ : (0:ℚ) <
          ((level_thresholds.getD (get_level xp1) 0 -
            (if 1 < get_level xp1 then level_thresholds.getD (get_level xp1 - 1) 0 else 0) :
              ℤ) : ℚ) := by
        exact_mod_cast sub_pos.mpr hgap
      gcongr
    have hlen : level_thresholds.length = 21 := by decide
    have hb1 : ¬ (level_thresholds.length ≤ get_level xp1) := by omega
    have hb2 : ¬ (level_thresholds.length ≤ get_level xp2) := by omega
    refine ⟨hraw, ?_⟩
    simp only [get_level_progress]
    rw [if_neg hb1, if_neg hb2]
    exact pyRound1_mono hraw.le
  · intro i
    fin_cases i <;>
      norm_num [progress_percentage, get_level, getLevelGo, level_thresholds, List.getD]

/-- C7, witness: strict unrounded increase and non-decreasing rounded
progress inside the level-1 band, at XP 0 and 50. -/
theorem level_progress_monotone_witness :
    progress_percentage 0 < progress_percentage 50 ∧
      (get_level_progress 0).progress ≤ (get_level_progress 50).progress :=
  level_progress_monotone.1 0 50 (by decide) (by decide) (by decide)

/-! ## Claims C6 and C10 — insufficient data and recommendation fallbacks -/

theorem cumsumGo_length (l : List ℚ) : ∀ acc, (cumsumGo acc l).length = l.length := by
  induction l with
  | nil => intro acc; rfl
  | cons x xs ih => intro acc; simp [cumsumGo, ih]

theorem dailyPoints_length (expense_data : List Expense) :
    (dailyPoints expense_data).length = (uniqueSortedDates expense_data).length := by
  simp [dailyPoints, cumsum, cumsumGo_length]

/-- C6: below the data minimums, both analytical entry points return an
empty/neutral result plus a non-empty message — neither raises (both are
total functions). -/
theorem insufficient_data_is_normal :
    (∀ log : List Session, log.length < 5 →
      analyze_weaknesses log = ([], ["Need more study sessions for accurate analysis."]) ∧
      "Need more study sessions for accurate analysis." ≠ "") ∧
    (∀ (expense_data : List Expense) (forecast_days : ℕ),
      expense_data.length < 5 ∨ (uniqueSortedDates expense_data).length < 2 →
      (forecast_spending expense_data forecast_days).1 = none ∧
      (forecast_spending expense_data forecast_days).2 ≠ "") := by
  constructor
  · intro log hlen
    have hcond : log.isEmpty = true ∨ log.length < 5 := Or.inr hlen
    rw [analyze_weaknesses, if_pos hcond]
    exact ⟨rfl, by decide⟩
  · intro expense_data forecast_days hcond
    simp only [forecast_spending]
    rcases Nat.lt_or_ge expense_data.length 5 with h5 | h5
    · rw [if_pos h5]
      exact ⟨rfl, by decide⟩
    · have hd2 : (uniqueSortedDates expense_data).length < 2 := by
        rcases hcond with h | h
        · omega
        · exact h
      have hpts : (dailyPoints expense_data).length < 2 := by
        rw [dailyPoints_length]; exact hd2
      rw [if_neg (by omega), if_pos hpts]
      exact ⟨rfl, by decide⟩

/-- C6, witness: the empty session log and the empty expense list. -/
theorem insufficient_data_is_normal_witness :
    (analyze_weaknesses [] = ([], ["Need more study sessions for accurate analysis."]) ∧
      "Need more study sessions for accurate analysis." ≠ "") ∧
    ((forecast_spending [] 30).1 = none ∧ (forecast_spending ([] : List Expense) 30).2 ≠ "") :=
  ⟨insufficient_data_is_normal.1 [] (by decide),
   insufficient_data_is_normal.2 [] 30 (Or.inl (by decide))⟩

theorem take_six_with_fallback_ne_nil {A : List String} {m : String} :
    (if A.isEmpty then A ++ [m] else A).take 6 ≠ [] := by
  by_cases h : A.isEmpty
  · rw [if_pos h, List.isEmpty_iff.mp h]
    simp
  · rw [if_neg h]
    cases A with
    | nil => exact absurd rfl h
    | cons a as => simp

/-- Whatever weak topics and insights it is handed, the recommendation
composer never returns an empty list: the final fallback rule fires when
nothing else did, and truncation to six keeps at least one entry. -/
theorem generate_recommendations_ne_nil (weak_topics : List WeakTopic)
    (insights : Insights) (user_data : List Session) :
    _generate_recommendations weak_topics insights user_data ≠ [] := by
  simp only [_generate_recommendations]
  exact take_six_with_fallback_ne_nil

/-- C10: for every session log — empty, shorter than five sessions, or
arbitrary — `analyze_weaknesses` returns a non-empty recommendation list
(in the embedding the Python `except` path is unreachable; its message
list is also non-empty). -/
theorem analyze_weaknesses_recommendations_ne_nil (log : List Session) :
    (analyze_weaknesses log).2 ≠ [] := by
  simp only [analyze_weaknesses]
  split
  · simp
  · exact generate_recommendations_ne_nil _ _ _

/-! ## Claim C8 — weakness score bounds -/

theorem mem_insertOn {α : Type} (key : α → ℤ) (a x : α) :
    ∀ l : List α, x ∈ insertOn key a l ↔ x = a ∨ x ∈ l := by
  intro l
  induction l with
  | nil => simp [insertOn]
  | cons b bs ih =>
    simp only [insertOn]
    split
    · simp only [List.mem_cons, ih]
      tauto
    · simp only [List.mem_cons]

theorem mem_sortOn_aux {α : Type} (key : α → ℤ) :
    ∀ (l acc : List α) (x : α),
      x ∈ l.foldl (fun acc a => insertOn key a acc) acc ↔ x ∈ acc ∨ x ∈ l := by
  intro l
  induction l with
  | nil => simp
  | cons b bs ih =>
    intro acc x
    rw [List.foldl_cons, ih, mem_insertOn]
    simp only [List.mem_cons]
    tauto

theorem mem_sortOn {α : Type} (key : α → ℤ) (l : List α) (x : α) :
    x ∈ sortOn key l ↔ x ∈ l := by
  rw [sortOn, mem_sortOn_aux]
  simp

theorem length_insertOn {α : Type} (key : α → ℤ) (a : α) :
    ∀ l : List α, (insertOn key a l).length = l.length + 1 := by
  intro l
  induction l with
  | nil => rfl
  | cons b bs ih =>
    simp only [insertOn]
    split
    · simp [ih]
    · simp

theorem length_sortOn_aux {α : Type} (key : α → ℤ) :
    ∀ (l acc : List α),
      (l.foldl (fun acc a => insertOn key a acc) acc).length = acc.length + l.length := by
  intro l
  induction l with
  | nil => simp
  | cons b bs ih =>
    intro acc
    rw [List.foldl_cons, ih, length_insertOn]
    simp only [List.length_cons]
    omega

theorem length_sortOn {α : Type} (key : α → ℤ) (l : List α) :
    (sortOn key l).length = l.length := by
  rw [sortOn, length_sortOn_aux]
  simp

theorem listMean_mem_Icc {l : List ℚ} {a b : ℚ} (hne : l ≠ [])
    (h : ∀ x ∈ l, a ≤ x ∧ x ≤ b) : a ≤ listMean l ∧ listMean l ≤ b := by
  have hlen : (0:ℚ) < (l.length : ℚ) := by
    have : 0 < l.length := List.length_pos.mpr hne
    exact_mod_cast this
  have hsum_le : l.sum ≤ l.length • b := List.sum_le_card_nsmul l b (fun x hx => (h x hx).2)
  have hle_sum : l.length • a ≤ l.sum := List.card_nsmul_le_sum l a (fun x hx => (h x hx).1)
  rw [nsmul_eq_mul] at hsum_le hle_sum
  unfold listMean
  constructor
  · rw [le_div_iff₀ hlen]
    linarith
  · rw [div_le_iff₀ hlen]
    linarith

/-- Over a log whose confidence ratings lie in `[1, 5]`, the improvement
trend of any topic is in `[-4, 4]`. -/
theorem improvement_trend_mem_Icc (log : List Session) (subject chapter : String)
    (hconf : ∀ s ∈ log, 1 ≤ s.confidence_rating ∧ s.confidence_rating ≤ 5) :
    -4 ≤ _calculate_improvement_trend log subject chapter ∧
      _calculate_improvement_trend log subject chapter ≤ 4 := by
  simp only [_calculate_improvement_trend]
  split
  · norm_num
  · rename_i hlen2
    set td := sortOn Session.date (topicSessions log subject chapter) with htd
    have hlen : 2 ≤ td.length := by omega
    have hmem : ∀ s ∈ td, 1 ≤ s.confidence_rating ∧ s.confidence_rating ≤ 5 := by
      intro s hs
      exact hconf s (List.mem_of_mem_filter ((mem_sortOn _ _ _).mp (htd ▸ hs)))
    have hbounds : ∀ (part : List Session), part.Subset td →
        ∀ x ∈ part.map (fun s => (s.confidence_rating : ℚ)), 1 ≤ x ∧ x ≤ 5 := by
      intro part hsub x hx
      obtain ⟨s, hs, rfl⟩ := List.mem_map.mp hx
      have := hmem s (hsub hs)
      exact ⟨by exact_mod_cast this.1, by exact_mod_cast this.2⟩
    have htake_ne : (td.take (td.length / 2)).map (fun s => (s.confidence_rating : ℚ)) ≠ [] := by
      have : 0 < (td.take (td.length / 2)).length := by
        rw [List.length_take]
        omega
      simp only [ne_eq, List.map_eq_nil_iff]
      exact List.ne_nil_of_length_pos this
    have hdrop_ne : (td.drop (td.length / 2)).map (fun s => (s.confidence_rating : ℚ)) ≠ [] := by
      have : 0 < (td.drop (td.length / 2)).length := by
        rw [List.length_drop]
        omega
      simp only [ne_eq, List.map_eq_nil_iff]
      exact List.ne_nil_of_length_pos this
    have hfirst := listMean_mem_Icc htake_ne
      (hbounds _ (List.take_subset (td.length / 2) td))
    have hsecond := listMean_mem_Icc hdrop_ne
      (hbounds _ (List.drop_subset (td.length / 2) td))
    constructor <;> linarith [hfirst.1, hfirst.2, hsecond.1, hsecond.2]

theorem foldl_min_le_init : ∀ (l : List ℤ) (init : ℤ), List.foldl min init l ≤ init := by
  intro l
  induction l with
  | nil => intro init; exact le_refl _
  | cons a as ih =>
    intro init
    calc List.foldl min (min init a) as ≤ min init a := ih (min init a)
      _ ≤ init := min_le_left _ _

theorem init_le_foldl_max : ∀ (l : List ℤ) (init : ℤ), init ≤ List.foldl max init l := by
  intro l
  induction l with
  | nil => intro init; exact le_refl _
  | cons a as ih =>
    intro init
    calc init ≤ max init a := le_max_left _ _
      _ ≤ List.foldl max (max init a) as := ih (max init a)

theorem minDate_le_maxDate {l : List ℤ} (h : l ≠ []) : minDate l ≤ maxDate l := by
  cases l with
  | nil => exact absurd rfl h
  | cons d ds =>
    calc minDate (d :: ds) = List.foldl min d ds := rfl
      _ ≤ d := foldl_min_le_init ds d
      _ ≤ List.foldl max d ds := init_le_foldl_max ds d

/-- The session log used to refute the claimed `[0, 1]` bound: one
`(M, A)` topic, four sessions, confidences 5, 5, 1, 1 (all inside `[1, 5]`)
spread over a 101-day span, which makes the mean 3, the improvement trend
−4 and the consistency 4/101, for a weakness score of 421/404 > 1. -/
def weaknessCounterexampleLog : List Session :=
  [⟨0, "M", "A", 10, 5, "", 0⟩, ⟨1, "M", "A", 10, 5, "", 0⟩,
   ⟨99, "M", "A", 10, 1, "", 0⟩, ⟨100, "M", "A", 10, 1, "", 0⟩]

/-- C8, counterexample: a topic group built from sessions with confidence
ratings inside `[1, 5]` whose weakness score exceeds 1 — the negative-trend
term `0.3 · max(0, −trend/2)` can contribute up to 0.6, pushing the score
past the claimed upper bound. -/
theorem weakness_score_exceeds_one :
    1 < _calculate_weakness_score (topicRow weaknessCounterexampleLog "M" "A") := by
  norm_num [_calculate_weakness_score, topicRow, weaknessCounterexampleLog, topicSessions,
    listMean, _calculate_improvement_trend, sortOn, insertOn, minDate, maxDate,
    pyRound2, pyRoundHalfEven, List.filter]

/-- C8, amended: for every `(subject, chapter)` group derived from
sessions whose confidence ratings lie in `[1, 5]`, the composite weakness
score lies in `[0, 1.3]` (not `[0, 1]`): the three factors are bounded by
1, 2 and 1, weighted 0.5, 0.3 and 0.2. -/
theorem weakness_score_bounds (log : List Session) (subject chapter : String)
    (hconf : ∀ s ∈ log, 1 ≤ s.confidence_rating ∧ s.confidence_rating ≤ 5)
    (hne : topicSessions log subject chapter ≠ []) :
    0 ≤ _calculate_weakness_score (topicRow log subject chapter) ∧
      _calculate_weakness_score (topicRow log subject chapter) ≤ 13/10 := by
  have hconf_g : ∀ x ∈ (topicSessions log subject chapter).map
      (fun s => (s.confidence_rating : ℚ)), 1 ≤ x ∧ x ≤ 5 := by
    intro x hx
    obtain ⟨s, hs, rfl⟩ := List.mem_map.mp hx
    have := hconf s (List.mem_of_mem_filter hs)
    exact ⟨by exact_mod_cast this.1, by exact_mod_cast this.2⟩
  have hmapne : (topicSessions log subject chapter).map
      (fun s => (s.confidence_rating : ℚ)) ≠ [] := by
    simpa using hne
  have hmean := listMean_mem_Icc hmapne hconf_g
  have hround := pyRound2_mem_Icc hmean.1 hmean.2
  have htrend := improvement_trend_mem_Icc log subject chapter hconf
  have hdatesne : (topicSessions log subject chapter).map Session.date ≠ [] := by
    simpa using hne
  have hdays : (0:ℤ) ≤ maxDate ((topicSessions log subject chapter).map Session.date) -
      minDate ((topicSessions log subject chapter).map Session.date) + 1 := by
    have := minDate_le_maxDate hdatesne
    omega
  have hcons : (0:ℚ) ≤ ((topicSessions log subject chapter).length : ℚ) /
      ((maxDate ((topicSessions log subject chapter).map Session.date) -
        minDate ((topicSessions log subject chapter).map Session.date) + 1 : ℤ) : ℚ) := by
    apply div_nonneg
    · exact_mod_cast Nat.zero_le _
    · exact_mod_cast hdays
  simp only [_calculate_weakness_score, topicRow]
  constructor
  · have h1 : 0 ≤ (5 - pyRound2 (listMean ((topicSessions log subject chapter).map
        (fun s => (s.confidence_rating : ℚ))))) / 4 := by linarith [hround.2]
    have h2 : (0:ℚ) ≤ max 0 (-_calculate_improvement_trend log subject chapter / 2) :=
      le_max_left _ _
    have h3 : (0:ℚ) ≤ 1 - min 1 (((topicSessions log subject chapter).length : ℚ) /
        ((maxDate ((topicSessions log subject chapter).map Session.date) -
          minDate ((topicSessions log subject chapter).map Session.date) + 1 : ℤ) : ℚ)) := by
      have := min_le_left (1:ℚ) (((topicSessions log subject chapter).length : ℚ) /
        ((maxDate ((topicSessions log subject chapter).map Session.date) -
          minDate ((topicSessions log subject chapter).map Session.date) + 1 : ℤ) : ℚ))
      linarith
    linarith
  · have h1 : (5 - pyRound2 (listMean ((topicSessions log subject chapter).map
        (fun s => (s.confidence_rating : ℚ))))) / 4 ≤ 1 := by linarith [hround.1]
    have h2 : max 0 (-_calculate_improvement_trend log subject chapter / 2) ≤ 2 :=
      max_le (by norm_num) (by linarith [htrend.1])
    have h3 : 1 - min 1 (((topicSessions log subject chapter).length : ℚ) /
        ((maxDate ((topicSessions log subject chapter).map Session.date) -
          minDate ((topicSessions log subject chapter).map Session.date) + 1 : ℤ) : ℚ)) ≤ 1 := by
      have hmin : (0:ℚ) ≤ min 1 (((topicSessions log subject chapter).length : ℚ) /
        ((maxDate ((topicSessions log subject chapter).map Session.date) -
          minDate ((topicSessions log subject chapter).map Session.date) + 1 : ℤ) : ℚ)) :=
        le_min (by norm_num) hcons
      linarith
    linarith

/-- C8, witness: a one-session topic group; its score is within
`[0, 1.3]`. -/
theorem weakness_score_bounds_witness :
    0 ≤ _calculate_weakness_score (topicRow [⟨0, "M", "A", 10, 3, "", 0⟩] "M" "A") ∧
      _calculate_weakness_score (topicRow [⟨0, "M", "A", 10, 3, "", 0⟩] "M" "A") ≤ 13/10 :=
  weakness_score_bounds [⟨0, "M", "A", 10, 3, "", 0⟩] "M" "A" (by decide)
    (by simp [topicSessions])

/-! ## Claim C9 — the fitted line at day 0 -/

theorem sorted_insertOn {α : Type} (key : α → ℤ) (a : α) :
    ∀ {l : List α}, l.Sorted (fun x y => key x ≤ key y) →
      (insertOn key a l).Sorted (fun x y => key x ≤ key y) := by
  intro l
  induction l with
  | nil => intro _; simp [insertOn]
  | cons b bs ih =>
    intro h
    obtain ⟨hhead, htail⟩ := List.sorted_cons.mp h
    simp only [insertOn]
    split
    · rename_i hba
      rw [List.sorted_cons]
      refine ⟨?_, ih htail⟩
      intro y hy
      rcases (mem_insertOn key a y bs).mp hy with rfl | hy
      · exact hba
      · exact hhead y hy
    · rename_i hba
      rw [List.sorted_cons]
      refine ⟨?_, h⟩
      intro y hy
      rcases List.mem_cons.mp hy with rfl | hy
      · omega
      · have := hhead y hy
        omega

theorem sorted_sortOn_aux {α : Type} (key : α → ℤ) :
    ∀ (l acc : List α), acc.Sorted (fun x y => key x ≤ key y) →
      (l.foldl (fun acc a => insertOn key a acc) acc).Sorted (fun x y => key x ≤ key y) := by
  intro l
  induction l with
  | nil => intro acc h; exact h
  | cons b bs ih =>
    intro acc h
    rw [List.foldl_cons]
    exact ih (insertOn key b acc) (sorted_insertOn key b h)

theorem sorted_sortOn {α : Type} (key : α → ℤ) (l : List α) :
    (sortOn key l).Sorted (fun x y => key x ≤ key y) :=
  sorted_sortOn_aux key l [] (by simp)

theorem sorted_uniqueSortedDates (expense_data : List Expense) :
    (uniqueSortedDates expense_data).Sorted (· ≤ ·) := by
  unfold uniqueSortedDates
  exact (sorted_sortOn (fun d => d) (expense_data.map Expense.date)).sublist
    (List.dedup_sublist _)

/-- The ordinary-least-squares line through two points with x-coordinates
0 and `t ≠ 0` interpolates them, so its intercept is the first y-value. -/
theorem fitIntercept_two_points (t : ℤ) (y0 y1 : ℚ) (ht : t ≠ 0) :
    fitIntercept [((0:ℤ), y0), (t, y1)] = y0 := by
  have htq : (t:ℚ) ≠ 0 := Int.cast_ne_zero.mpr ht
  simp only [fitIntercept, fitSlope, List.map_cons, List.map_nil, List.sum_cons,
    List.sum_nil, List.length_cons, List.length_nil]
  push_cast
  ring_nf
  field_simp

/-- With exactly two distinct expense dates `a < b`, the regression sample
is the two points `(0, spend a)` and `(b − a, spend a + spend b)`. -/
theorem dailyPoints_two_dates {expense_data : List Expense} {a b : ℤ}
    (h : uniqueSortedDates expense_data = [a, b]) :
    dailyPoints expense_data =
      [(0, dailyAmount expense_data a),
       (b - a, dailyAmount expense_data a + dailyAmount expense_data b)] ∧ a < b := by
  have hsorted := sorted_uniqueSortedDates expense_data
  have hnodup : (uniqueSortedDates expense_data).Nodup := List.nodup_dedup _
  rw [h] at hsorted hnodup
  have hab : a ≤ b := (List.sorted_cons.mp hsorted).1 b (by simp)
  have hne : a ≠ b := by
    intro heq
    rw [heq] at hnodup
    simp at hnodup
  have hlt : a < b := lt_of_le_of_ne hab hne
  refine ⟨?_, hlt⟩
  simp only [dailyPoints, h, minDate, List.foldl_cons, List.foldl_nil, List.map_cons,
    List.map_nil, cumsum, cumsumGo, List.zip, List.zipWith, min_eq_left hab]
  simp [List.zipWith]

/-- C9, counterexample: five accepted expenses on three distinct days,
daily totals 0, 0, 3 — the least-squares line through the cumulative
points (0,0), (1,0), (2,3) has intercept −1/2, so evaluating the fit at
day 0 gives −1/2, not the first historical cumulative value 0 (a 0.5
discrepancy, far beyond floating tolerance). -/
def forecastCounterexampleExpenses : List Expense :=
  [⟨"a", 0, "c", 0, ""⟩, ⟨"b", 0, "c", 0, ""⟩, ⟨"c", 0, "c", 0, ""⟩,
   ⟨"d", 0, "c", 1, ""⟩, ⟨"e", 3, "c", 2, ""⟩]

theorem forecast_day0_not_first_value :
    5 ≤ forecastCounterexampleExpenses.length ∧
    2 ≤ (uniqueSortedDates forecastCounterexampleExpenses).length ∧
    firstCumulative forecastCounterexampleExpenses = 0 ∧
    fittedAt forecastCounterexampleExpenses 0 = -(1/2) := by
  refine ⟨by decide, by decide, ?_, ?_⟩
  · norm_num [firstCumulative, dailyPoints, uniqueSortedDates, forecastCounterexampleExpenses,
      sortOn, insertOn, minDate, dailyAmount, cumsum, cumsumGo, List.filter_cons,
      List.filter_nil, List.dedup]
  · norm_num [fittedAt, fitIntercept, fitSlope, dailyPoints, uniqueSortedDates,
      forecastCounterexampleExpenses, sortOn, insertOn, minDate, dailyAmount, cumsum,
      cumsumGo, List.filter_cons, List.filter_nil, List.dedup]

/-- C9, amended: the day-0 round-trip holds exactly (not merely within
tolerance) when the accepted data spans exactly two distinct dates, where
the fitted line interpolates both cumulative points; with three or more
distinct dates the least-squares line need not pass through the first
point (see the counterexample). -/
theorem forecast_day0_two_dates (expense_data : List Expense)
    (h5 : 5 ≤ expense_data.length)
    (h2 : (uniqueSortedDates expense_data).length = 2) :
    fittedAt expense_data 0 = firstCumulative expense_data := by
  obtain ⟨a, b, hab⟩ := List.length_eq_two.mp h2
  obtain ⟨hpts, hlt⟩ := dailyPoints_two_dates hab
  rw [fittedAt, firstCumulative, hpts]
  simp only [Int.cast_zero, mul_zero, add_zero, List.headD_cons]
  exact fitIntercept_two_points (b - a) _ _ (by omega)

/-- C9, witness: five expenses on exactly two dates; the fitted line at
day 0 reproduces the first cumulative value. -/
theorem forecast_day0_two_dates_witness :
    (5 ≤ ([⟨"a", 1, "c", 0, ""⟩, ⟨"b", 2, "c", 0, ""⟩, ⟨"c", 0, "c", 0, ""⟩,
      ⟨"d", 4, "c", 1, ""⟩, ⟨"e", 0, "c", 1, ""⟩] : List Expense).length) ∧
    fittedAt [⟨"a", 1, "c", 0, ""⟩, ⟨"b", 2, "c", 0, ""⟩, ⟨"c", 0, "c", 0, ""⟩,
      ⟨"d", 4, "c", 1, ""⟩, ⟨"e", 0, "c", 1, ""⟩] 0 =
    firstCumulative [⟨"a", 1, "c", 0, ""⟩, ⟨"b", 2, "c", 0, ""⟩, ⟨"c", 0, "c", 0, ""⟩,
      ⟨"d", 4, "c", 1, ""⟩, ⟨"e", 0, "c", 1, ""⟩] :=
  ⟨by decide,
   forecast_day0_two_dates _ (by decide) (by decide)⟩

end Elevate
